import Mathlib

/-!
Verification of the log-viewer core of the `labpeep` repository.

This file gives a shallow embedding of `src/ui/components/log_viewer.rs`
and settles the frozen claims about it.

Modelling conventions:
* A Rust `&str` is modelled as a `List Char` of Unicode scalar values.
  Rust's byte-oriented operations (`str::len`, byte slicing `&s[3..]`)
  are modelled through the UTF-8 byte size of each character
  (`Char.utf8Size`), so the char-boundary panics of byte slicing are
  representable: a function that can panic returns an `Option`, with
  `none` for the panic.
* The timestamp regex
  `^(\d{4}-\d{2}-\d{2})T(\d{2}:\d{2}:\d{2})(?:\.\d+)?(?:Z|[+-]\d{2}:\d{2})?\s+`
  is embedded as a deterministic scanner (`matchTs`).  The pattern
  itself (anchoring, literals, captures, greedy repetition) is
  translated from the source; the interpretations of the character
  classes `\d` (`\p{Nd}`) and `\s` (`\p{White_Space}`) are Unicode
  tables bundled with the external `regex` crate (they depend on the
  crate's Unicode data version), so the scanner is parameterized by
  two predicates `isDigit` and `isWs`, and every theorem below holds
  for all interpretations — in particular the crate's.  What is fixed
  by Unicode in every version is the restriction of both classes to
  the ASCII range (`asciiDigit`, `asciiWs` below); theorems about
  concrete ASCII inputs therefore assume of `isDigit` / `isWs` only
  that they agree with those restrictions on ASCII, which the crate's
  tables do.
* The external ANSI parser (`ansi_to_tui::IntoText`) and the terminal
  layout solver are not part of the repository; the render model
  quantifies over an arbitrary parser result and an arbitrary content
  height.
-/

/-- Total UTF-8 byte length of a string, i.e. Rust's `str::len`. -/
def byteLen (s : List Char) : Nat :=
  (s.map Char.utf8Size).sum

/-- Rust byte slicing `&s[n..]` on a string: drops `n` bytes.
Returns `none` (panic) when `n` is not a character boundary or
exceeds the length, exactly as Rust's `&str` indexing panics. -/
def dropBytes : Nat → List Char → Option (List Char)
  | 0, l => some l
  | _ + 1, [] => none
  | n + 1, c :: cs =>
    if c.utf8Size ≤ n + 1 then dropBytes (n + 1 - c.utf8Size) cs else none

/-- Embeds the third-character test of the no-null-byte fallback in
`strip_gitlab_prefixes`:
`matches!(third_char, Some('E') | Some('O') | Some('0'..='9') | Some('A'..='F') | Some('a'..='f'))`. -/
def isCtrlThird (c : Char) : Bool :=
  c = 'E' || c = 'O' || ('0' ≤ c && c ≤ '9') || ('A' ≤ c && c ≤ 'F') ||
    ('a' ≤ c && c ≤ 'f')

/-- Embeds the control-code stripping stage of `strip_gitlab_prefixes`
(the two `if` / `else if` branches before the section-marker check):

* `result.starts_with("\x00") && result.len() >= 3` → `result = &result[3..]`;
* `result.starts_with("00") && result.len() >= 3` and
  `result.chars().nth(2)` matches `isCtrlThird` → `result = &result[3..]`;
* otherwise the line is left as it is.

`none` models the panic of `&result[3..]` on a non-boundary index. -/
def stripCtrl (s : List Char) : Option (List Char) :=
  if s.take 1 = ['\x00'] ∧ 3 ≤ byteLen s then
    dropBytes 3 s
  else if s.take 2 = ['0', '0'] ∧ 3 ≤ byteLen s then
    match (s.drop 2).head? with
    | some c3 => if isCtrlThird c3 then dropBytes 3 s else some s
    | none => some s
  else some s

/-- Records whether a line satisfies one of the two stripping conditions
of `stripCtrl` (so that `stripCtrl` does not return it unchanged). -/
def startsCtrl (s : List Char) : Bool :=
  if s.take 1 = ['\x00'] ∧ 3 ≤ byteLen s then
    true
  else if s.take 2 = ['0', '0'] ∧ 3 ≤ byteLen s then
    match (s.drop 2).head? with
    | some c3 => isCtrlThird c3
    | none => false
  else false

/-- Embeds the section-marker test
`result.starts_with("section_start:") || result.starts_with("section_end:")`. -/
def isSectionLine (s : List Char) : Bool :=
  List.isPrefixOf ("section_start:".toList) s ||
    List.isPrefixOf ("section_end:".toList) s

/-- Embeds `strip_gitlab_prefixes`: control-code stripping, then the
section-marker check replacing the whole line by the empty string.
`none` models a panic. -/
def strip_gitlab_prefixes (line : List Char) : Option (List Char) :=
  (stripCtrl line).map (fun r => if isSectionLine r then [] else r)

/-- Embeds `TimestampDisplayMode` from `app.rs` (only its three
variants are used by the log viewer). -/
inductive TimestampDisplayMode where
  | Hidden
  | DateOnly
  | Full
deriving DecidableEq

/-- The restriction of the regex class `\d` (`\p{Nd}`) to the ASCII
range: in every Unicode version the only decimal-digit characters
below `U+0080` are `0-9`. -/
def asciiDigit (c : Char) : Bool :=
  '0' ≤ c && c ≤ '9'

/-- The restriction of the regex class `\s` (`\p{White_Space}`) to the
ASCII range: in every Unicode version the only White_Space characters
below `U+0080` are TAB, LF, VT, FF, CR and SPACE. -/
def asciiWs (c : Char) : Bool :=
  c = ' ' || c = '\t' || c = '\n' || c = '\x0b' || c = '\x0c' || c = '\r'

/-- The optional fractional-seconds group `(?:\.\d+)?` under the class
interpretation `isDigit`: consumes a dot followed by a maximal
nonempty run of digits, otherwise consumes nothing.  (With the regex
engine's leftmost-first matching, giving digits back can never help:
whatever follows the group must start with `Z`, `+`, `-` or
whitespace, and `\p{Nd}` contains none of those literals and is
disjoint from `\p{White_Space}`.) -/
def dropFrac (isDigit : Char → Bool) (s : List Char) : List Char :=
  match s with
  | '.' :: r =>
    match r with
    | c :: _ => if isDigit c then r.dropWhile isDigit else s
    | [] => s
  | _ => s

/-- The optional timezone group `(?:Z|[+-]\d{2}:\d{2})?` under the
class interpretation `isDigit`: consumes a `Z`, or a sign followed by
`\d{2}:\d{2}`, otherwise consumes nothing. -/
def dropTz (isDigit : Char → Bool) (s : List Char) : List Char :=
  match s with
  | 'Z' :: r => r
  | c :: d1 :: d2 :: ':' :: d3 :: d4 :: r =>
    if (c = '+' || c = '-') && isDigit d1 && isDigit d2 && isDigit d3
        && isDigit d4 then
      r
    else s
  | _ => s

/-- The fourteen character positions bound by the literal skeleton
`....-..-..T..:..:..` of the timestamp regex, plus the remaining
suffix.  Isolating the positional destructuring keeps it independent
of the class interpretations. -/
structure TsHead where
  y1 : Char
  y2 : Char
  y3 : Char
  y4 : Char
  mo1 : Char
  mo2 : Char
  d1 : Char
  d2 : Char
  h1 : Char
  h2 : Char
  mi1 : Char
  mi2 : Char
  s1 : Char
  s2 : Char
  rest : List Char

/-- Destructures a line along the literal skeleton
`....-..-..T..:..:..` of the timestamp regex: nineteen leading
characters with `-`, `T` and `:` at the positions the regex fixes,
the rest returned as the suffix. -/
def tsHead (s : List Char) : Option TsHead :=
  match s with
  | y1 :: y2 :: y3 :: y4 :: '-' :: mo1 :: mo2 :: '-' :: d1 :: d2 :: 'T' ::
      h1 :: h2 :: ':' :: mi1 :: mi2 :: ':' :: s1 :: s2 :: rest =>
    some ⟨y1, y2, y3, y4, mo1, mo2, d1, d2, h1, h2, mi1, mi2, s1, s2, rest⟩
  | _ => none

/-- The mandatory trailing `\s+` of the timestamp regex under the
class interpretation `isWs`: requires at least one whitespace
character after fraction and timezone, consumes the maximal
whitespace run, and returns the captures together with the suffix
after the whole match. -/
def matchTsTail (isWs : Char → Bool) (afterTz date time : List Char) :
    Option (List Char × List Char × List Char) :=
  match afterTz with
  | c :: _ => if isWs c then some (date, time, afterTz.dropWhile isWs) else none
  | [] => none

/-- Embeds the anchored timestamp regex
`^(\d{4}-\d{2}-\d{2})T(\d{2}:\d{2}:\d{2})(?:\.\d+)?(?:Z|[+-]\d{2}:\d{2})?\s+`
as a deterministic scanner, parameterized by the interpretations
`isDigit` of `\d` (`\p{Nd}`) and `isWs` of `\s` (`\p{White_Space}`),
whose character tables live in the external `regex` crate and depend
on its bundled Unicode data version.  On a match it returns the
triple of capture 1 (`\d{4}-\d{2}-\d{2}`), capture 2
(`\d{2}:\d{2}:\d{2}`), and the suffix after the end of the whole
match, i.e. after the maximal whitespace run matched by the final
`\s+`.  The scanner consumes greedily and never backtracks, which
agrees with the pattern's leftmost-first semantics because the two
classes are disjoint from each other and contain none of the literal
characters `Z + - . :` — true of `\p{Nd}` and `\p{White_Space}`. -/
def matchTs (isDigit isWs : Char → Bool) (s : List Char) :
    Option (List Char × List Char × List Char) :=
  match tsHead s with
  | some t =>
    if isDigit t.y1 && isDigit t.y2 && isDigit t.y3 && isDigit t.y4 &&
        isDigit t.mo1 && isDigit t.mo2 && isDigit t.d1 && isDigit t.d2 &&
        isDigit t.h1 && isDigit t.h2 && isDigit t.mi1 && isDigit t.mi2 &&
        isDigit t.s1 && isDigit t.s2 then
      matchTsTail isWs (dropTz isDigit (dropFrac isDigit t.rest))
        [t.y1, t.y2, t.y3, t.y4, '-', t.mo1, t.mo2, '-', t.d1, t.d2]
        [t.h1, t.h2, ':', t.mi1, t.mi2, ':', t.s1, t.s2]
    else none
  | none => none

/-- Embeds the mode match of `process_log_line`, applied to the already
stripped line: `Hidden` replaces the regex match by the empty string,
`DateOnly` rebuilds `format!("{} {}", date, rest)`, `Full` rebuilds
`format!("{} {} {}", date, time, rest)`; with no match the line is
returned unchanged in every mode. -/
def format_timestamp (isDigit isWs : Char → Bool) (s : List Char)
    (mode : TimestampDisplayMode) : List Char :=
  match matchTs isDigit isWs s, mode with
  | some (_, _, rest), .Hidden => rest
  | some (date, _, rest), .DateOnly => date ++ ' ' :: rest
  | some (date, time, rest), .Full => date ++ ' ' :: (time ++ ' ' :: rest)
  | none, _ => s

/-- Embeds `process_log_line`: strip GitLab prefixes, then format the
leading timestamp according to the display mode.  `none` models a panic
of the stripping stage. -/
def process_log_line (isDigit isWs : Char → Bool) (line : List Char)
    (mode : TimestampDisplayMode) : Option (List Char) :=
  (strip_gitlab_prefixes line).map
    (fun r => format_timestamp isDigit isWs r mode)

/-- Embeds the viewport arithmetic of `render` (lines 150–162):
`max_offset = total_lines.saturating_sub(content_height)`,
`scroll_offset = app.log_scroll_offset.min(max_offset)`,
`start = scroll_offset`,
`end = (scroll_offset + content_height).min(total_lines)`.
`Nat` subtraction is Rust's `saturating_sub`. -/
def visible_range (total_lines viewport_height requested_offset : Nat) :
    Nat × Nat :=
  let max_offset := total_lines - viewport_height
  let off := min requested_offset max_offset
  (off, min (off + viewport_height) total_lines)

/-- A styled text span; `styled = false` is an unstyled (`Span::raw`)
span.  The concrete style data of ratatui is irrelevant to the claims
and collapsed into the flag. -/
structure Span where
  content : List Char
  styled : Bool
deriving DecidableEq

/-- Embeds the `match ansi_to_tui::IntoText::into_text(&processed_line)`
arm of `render`: `Err(_)` falls back to `Line::from(processed_line)`
(a single raw span holding the processed text); `Ok` with no lines
yields `Line::from("")`; otherwise the first parsed line is used. -/
def styledLineOfParse (r : Except Unit (List (List Span)))
    (processed : List Char) : List Span :=
  match r with
  | .error _ => [⟨processed, false⟩]
  | .ok ls =>
    match ls with
    | [] => [⟨[], false⟩]
    | l :: _ => l

/-- One drawing operation issued by `render` to the frame. -/
inductive RenderOp where
  | clear
  | block (title : List Char)
  | paragraph (title : List Char) (visible : List (List Span))
  | searchBar (query : List Char)
deriving DecidableEq

/-- The fields of `App` read by the log viewer's `render`. -/
structure App where
  log_content : Option (List Char)
  log_job_name : Option (List Char)
  timestamp_mode : TimestampDisplayMode
  log_scroll_offset : Nat
  is_searching : Bool
  search_query : List Char
  search_results : List Nat
  current_search_result : Nat

/-- Rust `str::lines` on a `List Char`: split at `\n`, dropping one
trailing `\r` of each `\n`-terminated segment; the final segment keeps
a lone `\r` and is dropped when empty. -/
def linesOf : List Char → List Char → List (List Char)
  | [], acc => if acc.isEmpty then [] else [acc.reverse]
  | '\n' :: rest, acc =>
    (match acc with
      | '\r' :: a => a.reverse
      | _ => acc.reverse) :: linesOf rest []
  | c :: rest, acc => linesOf rest (c :: acc)

/-- Decimal digits of a number, for the `format!` interpolations. -/
def natChars (n : Nat) : List Char :=
  (Nat.repr n).toList

/-- Embeds the log viewer's `render` as the sequence of drawing
operations it issues.  `contentHeight` abstracts `log_area.height - 2`
(the area comes from the external layout solver), `parse` abstracts the
external `ansi_to_tui` parser, `isDigit` and `isWs` the regex crate's
class tables, and `none` models a panic in line processing. -/
def render (contentHeight : Nat)
    (parse : List Char → Except Unit (List (List Span)))
    (isDigit isWs : Char → Bool)
    (app : App) : Option (List RenderOp) :=
  match app.log_content with
  | none => some [RenderOp.clear, RenderOp.block ("Job Log".toList)]
  | some content => do
    let jobName := app.log_job_name.getD ("Unknown Job".toList)
    let lines ← (linesOf content []).mapM (fun l =>
      (process_log_line isDigit isWs l app.timestamp_mode).map
        (fun p => styledLineOfParse (parse p) p))
    let total := lines.length
    let vr := visible_range total contentHeight app.log_scroll_offset
    let visible := if 0 < total then
        (lines.drop vr.1).take (vr.2 - vr.1)
      else [[⟨"(empty log)".toList, false⟩]]
    let scrollInd := if contentHeight < total then
        " [".toList ++ natChars (vr.1 + 1) ++ "/".toList ++
          natChars (total - contentHeight + 1) ++ "] ".toList
      else []
    let tsInd :=
      (match app.timestamp_mode with
        | .Hidden => "[Timestamps: Hidden]"
        | .DateOnly => "[Timestamps: Date]"
        | .Full => "[Timestamps: Full]").toList
    let searchInd := if app.search_results ≠ [] then
        " [Match ".toList ++ natChars (app.current_search_result + 1) ++
          "/".toList ++ natChars app.search_results.length ++ "]".toList
      else if app.search_query ≠ [] ∧ app.is_searching = false then
        " [No matches]".toList
      else []
    let title := "Job Log: ".toList ++ jobName ++
      (if scrollInd = [] then " ".toList else scrollInd) ++ tsInd ++
      searchInd ++ " (q/Esc close, / search, n/N next/prev, t time)".toList
    some ([RenderOp.clear, RenderOp.paragraph title visible] ++
      if app.is_searching then [RenderOp.searchBar app.search_query] else [])

/-- Written from the spec's words, for comparison with the source's
`isCtrlThird`: the third-character set as claim C2 states it
(a hex digit or a letter in `A-F` / `a-f`, i.e. one of
`0-9`, `A-F`, `a-f`). -/
def specHexDigit (c : Char) : Bool :=
  ('0' ≤ c && c ≤ '9') || ('A' ≤ c && c ≤ 'F') || ('a' ≤ c && c ≤ 'f')

example : strip_gitlab_prefixes ("00Ehello".toList) = some ("hello".toList) := by
  decide
example : strip_gitlab_prefixes ("ab".toList) = some ("ab".toList) := by decide
example : strip_gitlab_prefixes ("section_start:123:x".toList) = some [] := by
  decide
example :
    process_log_line asciiDigit asciiWs
      ("2024-01-15T10:30:45+07:30  x".toList) .Full =
      some ("2024-01-15 10:30:45 x".toList) := by decide

theorem utf8Size_one_of_le (c : Char) (h : c ≤ 'f') : c.utf8Size = 1 := by
  have hv : c.val ≤ (UInt32.ofNatCore 0x7F (by decide)) := by
    rw [Char.le_def] at h
    exact UInt32.le_trans h (by decide)
  simp only [Char.utf8Size]
  rw [if_pos hv]

theorem le_f_of_ctrlThird (c : Char) (h : isCtrlThird c = true) : c ≤ 'f' := by
  unfold isCtrlThird at h
  simp only [Bool.or_eq_true, Bool.and_eq_true, decide_eq_true_eq] at h
  rw [Char.le_def]
  rcases h with ((((h | h) | ⟨h1, h2⟩) | ⟨h1, h2⟩) | ⟨h1, h2⟩)
  · subst h; decide
  · subst h; decide
  · exact UInt32.le_trans (Char.le_def.mp h2) (by decide)
  · exact UInt32.le_trans (Char.le_def.mp h2) (by decide)
  · exact UInt32.le_trans (Char.le_def.mp h2) (by decide)

theorem utf8Size_one_of_ctrlThird (c : Char) (h : isCtrlThird c = true) :
    c.utf8Size = 1 :=
  utf8Size_one_of_le c (le_f_of_ctrlThird c h)

theorem byteLen_cons (c : Char) (l : List Char) :
    byteLen (c :: l) = c.utf8Size + byteLen l := by
  simp [byteLen]

theorem dropBytes_three (c1 c2 c3 : Char) (rest : List Char)
    (h1 : c1.utf8Size = 1) (h2 : c2.utf8Size = 1) (h3 : c3.utf8Size = 1) :
    dropBytes 3 (c1 :: c2 :: c3 :: rest) = some rest := by
  simp [dropBytes, h1, h2, h3]

theorem stripCtrl_notNull (s : List Char) (h : s.take 1 ≠ ['\x00']) :
    stripCtrl s =
      if s.take 2 = ['0', '0'] ∧ 3 ≤ byteLen s then
        match (s.drop 2).head? with
        | some c3 => if isCtrlThird c3 then dropBytes 3 s else some s
        | none => some s
      else some s := by
  unfold stripCtrl
  rw [if_neg (fun hc => h hc.1)]

theorem stripCtrl_00 (c3 : Char) (rest : List Char) :
    stripCtrl ('0' :: '0' :: c3 :: rest) =
      if isCtrlThird c3 then some rest
      else some ('0' :: '0' :: c3 :: rest) := by
  rw [stripCtrl_notNull _ (by
    rw [show List.take 1 ('0' :: '0' :: c3 :: rest) = ['0'] from rfl]
    decide)]
  have hlen : 3 ≤ byteLen ('0' :: '0' :: c3 :: rest) := by
    have := Char.utf8Size_pos c3
    simp only [byteLen_cons]
    have : '0'.utf8Size = 1 := by decide
    omega
  rw [if_pos ⟨rfl, hlen⟩]
  show (if isCtrlThird c3 then dropBytes 3 ('0' :: '0' :: c3 :: rest)
      else some ('0' :: '0' :: c3 :: rest)) = _
  by_cases h : isCtrlThird c3 = true
  · rw [if_pos h, if_pos h,
      dropBytes_three _ _ _ _ (by decide) (by decide)
        (utf8Size_one_of_ctrlThird c3 h)]
  · rw [if_neg h, if_neg h]

theorem stripCtrl_nullCode (c1 c2 : Char) (rest : List Char)
    (h1 : c1.utf8Size = 1) (h2 : c2.utf8Size = 1) :
    stripCtrl ('\x00' :: c1 :: c2 :: rest) = some rest := by
  unfold stripCtrl
  have hlen : 3 ≤ byteLen ('\x00' :: c1 :: c2 :: rest) := by
    simp only [byteLen_cons, h1, h2]
    have : '\x00'.utf8Size = 1 := by decide
    omega
  rw [if_pos ⟨rfl, hlen⟩, dropBytes_three _ _ _ _ (by decide) h1 h2]

theorem stripCtrl_of_not_startsCtrl (s : List Char)
    (h : startsCtrl s = false) : stripCtrl s = some s := by
  unfold startsCtrl at h
  unfold stripCtrl
  by_cases hc1 : s.take 1 = ['\x00'] ∧ 3 ≤ byteLen s
  · rw [if_pos hc1] at h
    exact absurd h (by simp)
  · rw [if_neg hc1] at h
    rw [if_neg hc1]
    by_cases hc2 : s.take 2 = ['0', '0'] ∧ 3 ≤ byteLen s
    · rw [if_pos hc2] at h
      rw [if_pos hc2]
      cases hh : (s.drop 2).head? with
      | none => simp only [hh]
      | some c3 =>
        simp only [hh] at h ⊢
        rw [if_neg (by simp [h])]
    · rw [if_neg hc2]

theorem strip_unchanged (s : List Char) (h1 : startsCtrl s = false)
    (h2 : isSectionLine s = false) : strip_gitlab_prefixes s = some s := by
  unfold strip_gitlab_prefixes
  rw [stripCtrl_of_not_startsCtrl s h1]
  simp [h2]

theorem strip_some_cases (x r : List Char)
    (h : strip_gitlab_prefixes x = some r) :
    r = [] ∨ isSectionLine r = false := by
  unfold strip_gitlab_prefixes at h
  cases hc : stripCtrl x with
  | none => rw [hc] at h; exact absurd h (by simp)
  | some r0 =>
    rw [hc] at h
    simp only [Option.map_some', Option.some.injEq] at h
    cases hs : isSectionLine r0 with
    | true => rw [if_pos hs] at h; exact Or.inl h.symm
    | false => rw [if_neg (by simp [hs])] at h; exact Or.inr (h ▸ hs)

theorem ctrlThird_eq_specHex_or_O (c : Char) :
    isCtrlThird c = (specHexDigit c || c = 'O') := by
  by_cases hE : c = 'E'
  · subst hE; decide
  · by_cases hO : c = 'O'
    · subst hO; decide
    · simp [isCtrlThird, specHexDigit, hE, hO, Bool.or_assoc]

theorem tsHead_shape (s : List Char) (t : TsHead) (h : tsHead s = some t) :
    s = t.y1 :: t.y2 :: t.y3 :: t.y4 :: '-' :: t.mo1 :: t.mo2 :: '-' ::
      t.d1 :: t.d2 :: 'T' :: t.h1 :: t.h2 :: ':' :: t.mi1 :: t.mi2 :: ':' ::
      t.s1 :: t.s2 :: t.rest := by
  unfold tsHead at h
  split at h
  · cases h
    rfl
  · cases h

theorem dropWhile_congr_mem {p q : Char → Bool} :
    ∀ l : List Char, (∀ c ∈ l, p c = q c) →
      l.dropWhile p = l.dropWhile q
  | [], _ => rfl
  | a :: l, h => by
    have ha := h a (List.mem_cons_self a l)
    simp only [List.dropWhile, ha]
    cases hq : q a with
    | true =>
      exact dropWhile_congr_mem l (fun c hc => h c (List.mem_cons_of_mem a hc))
    | false => rfl

theorem dropFrac_congr {pD qD : Char → Bool} (s : List Char)
    (h : ∀ c ∈ s, pD c = qD c) : dropFrac pD s = dropFrac qD s := by
  match s with
  | [] => rfl
  | [a] =>
    by_cases ha : a = '.'
    · subst ha; rfl
    · simp [dropFrac, ha]
  | a :: b :: r =>
    by_cases ha : a = '.'
    · subst ha
      have hb := h b (by simp)
      show (if pD b then (b :: r).dropWhile pD else '.' :: b :: r) =
        (if qD b then (b :: r).dropWhile qD else '.' :: b :: r)
      rw [hb]
      cases hq : qD b with
      | true =>
        simp only [if_pos]
        exact dropWhile_congr_mem (b :: r)
          (fun c hc => h c (List.mem_cons_of_mem _ hc))
      | false => rfl
    · simp [dropFrac, ha]

theorem mem_of_dropFrac {pD : Char → Bool} {s : List Char} {c : Char}
    (h : c ∈ dropFrac pD s) : c ∈ s := by
  match s with
  | [] => exact h
  | [a] =>
    by_cases ha : a = '.'
    · subst ha; exact h
    · simpa [dropFrac, ha] using h
  | a :: b :: r =>
    by_cases ha : a = '.'
    · subst ha
      have hred : dropFrac pD ('.' :: b :: r) =
          if pD b then (b :: r).dropWhile pD else '.' :: b :: r := rfl
      rw [hred] at h
      cases hp : pD b with
      | true =>
        rw [if_pos (by rw [hp])] at h
        exact List.mem_cons_of_mem _ (List.dropWhile_subset _ h)
      | false =>
        rw [if_neg (by rw [hp]; simp)] at h
        exact h
    · simpa [dropFrac, ha] using h

theorem dropTz_congr {pD qD : Char → Bool} (s : List Char)
    (h : ∀ c ∈ s, pD c = qD c) : dropTz pD s = dropTz qD s := by
  rcases s with _ | ⟨a, _ | ⟨b, _ | ⟨c0, _ | ⟨d, _ | ⟨e, _ | ⟨f, r2⟩⟩⟩⟩⟩⟩
  · rfl
  · by_cases ha : a = 'Z'
    · subst ha; simp [dropTz]
    · simp [dropTz, ha]
  · by_cases ha : a = 'Z'
    · subst ha; simp [dropTz]
    · simp [dropTz, ha]
  · by_cases ha : a = 'Z'
    · subst ha; simp [dropTz]
    · simp [dropTz, ha]
  · by_cases ha : a = 'Z'
    · subst ha; simp [dropTz]
    · simp [dropTz, ha]
  · by_cases ha : a = 'Z'
    · subst ha; simp [dropTz]
    · simp [dropTz, ha]
  · by_cases ha : a = 'Z'
    · subst ha; simp [dropTz]
    · by_cases hd : d = ':'
      · subst hd
        have hb := h b (by simp)
        have hc0 := h c0 (by simp)
        have he := h e (by simp)
        have hf := h f (by simp)
        simp only [dropTz, ha, hb, hc0, he, hf]
      · simp [dropTz, ha, hd]

theorem mem_of_dropTz {pD : Char → Bool} {s : List Char} {c : Char}
    (h : c ∈ dropTz pD s) : c ∈ s := by
  rcases s with _ | ⟨a, _ | ⟨b, _ | ⟨c0, _ | ⟨d, _ | ⟨e, _ | ⟨f, r2⟩⟩⟩⟩⟩⟩
  · exact h
  · by_cases ha : a = 'Z'
    · subst ha
      simp only [dropTz] at h
      exact List.mem_cons_of_mem _ h
    · simpa [dropTz, ha] using h
  · by_cases ha : a = 'Z'
    · subst ha
      simp only [dropTz] at h
      exact List.mem_cons_of_mem _ h
    · simpa [dropTz, ha] using h
  · by_cases ha : a = 'Z'
    · subst ha
      simp only [dropTz] at h
      exact List.mem_cons_of_mem _ h
    · simpa [dropTz, ha] using h
  · by_cases ha : a = 'Z'
    · subst ha
      simp only [dropTz] at h
      exact List.mem_cons_of_mem _ h
    · simpa [dropTz, ha] using h
  · by_cases ha : a = 'Z'
    · subst ha
      simp only [dropTz] at h
      exact List.mem_cons_of_mem _ h
    · simpa [dropTz, ha] using h
  · by_cases ha : a = 'Z'
    · subst ha
      simp only [dropTz] at h
      exact List.mem_cons_of_mem _ h
    · by_cases hd : d = ':'
      · subst hd
        have hred : dropTz pD (a :: b :: c0 :: ':' :: e :: f :: r2) =
            if (a = '+' || a = '-') && pD b && pD c0 && pD e && pD f then r2
            else a :: b :: c0 :: ':' :: e :: f :: r2 := by
          simp [dropTz, ha]
        rw [hred] at h
        cases hcond : ((a = '+' || a = '-') && pD b && pD c0 && pD e && pD f)
          with
        | true =>
          rw [if_pos (by rw [hcond])] at h
          simp only [List.mem_cons]
          exact Or.inr (Or.inr (Or.inr (Or.inr (Or.inr (Or.inr h)))))
        | false =>
          rw [if_neg (by rw [hcond]; simp)] at h
          exact h
      · simpa [dropTz, ha, hd] using h

theorem matchTsTail_congr {pW qW : Char → Bool} (a d t : List Char)
    (h : ∀ c ∈ a, pW c = qW c) :
    matchTsTail pW a d t = matchTsTail qW a d t := by
  match a with
  | [] => rfl
  | c :: r =>
    have hc := h c (by simp)
    show (if pW c then some (d, t, (c :: r).dropWhile pW) else none) =
      (if qW c then some (d, t, (c :: r).dropWhile qW) else none)
    rw [hc, dropWhile_congr_mem (c :: r) h]

theorem matchTs_congr {pD pW qD qW : Char → Bool} (s : List Char)
    (hD : ∀ c ∈ s, pD c = qD c) (hW : ∀ c ∈ s, pW c = qW c) :
    matchTs pD pW s = matchTs qD qW s := by
  cases ht : tsHead s with
  | none => simp [matchTs, ht]
  | some t =>
    have hs := tsHead_shape s t ht
    have hy1 : pD t.y1 = qD t.y1 := hD _ (by rw [hs]; simp)
    have hy2 : pD t.y2 = qD t.y2 := hD _ (by rw [hs]; simp)
    have hy3 : pD t.y3 = qD t.y3 := hD _ (by rw [hs]; simp)
    have hy4 : pD t.y4 = qD t.y4 := hD _ (by rw [hs]; simp)
    have hmo1 : pD t.mo1 = qD t.mo1 := hD _ (by rw [hs]; simp)
    have hmo2 : pD t.mo2 = qD t.mo2 := hD _ (by rw [hs]; simp)
    have hd1 : pD t.d1 = qD t.d1 := hD _ (by rw [hs]; simp)
    have hd2 : pD t.d2 = qD t.d2 := hD _ (by rw [hs]; simp)
    have hh1 : pD t.h1 = qD t.h1 := hD _ (by rw [hs]; simp)
    have hh2 : pD t.h2 = qD t.h2 := hD _ (by rw [hs]; simp)
    have hmi1 : pD t.mi1 = qD t.mi1 := hD _ (by rw [hs]; simp)
    have hmi2 : pD t.mi2 = qD t.mi2 := hD _ (by rw [hs]; simp)
    have hs1 : pD t.s1 = qD t.s1 := hD _ (by rw [hs]; simp)
    have hs2 : pD t.s2 = qD t.s2 := hD _ (by rw [hs]; simp)
    have hrestD : ∀ c ∈ t.rest, pD c = qD c := fun c hc =>
      hD c (by rw [hs]; simp [hc])
    have hrestW : ∀ c ∈ t.rest, pW c = qW c := fun c hc =>
      hW c (by rw [hs]; simp [hc])
    simp only [matchTs, ht]
    rw [hy1, hy2, hy3, hy4, hmo1, hmo2, hd1, hd2, hh1, hh2, hmi1, hmi2,
      hs1, hs2]
    cases hcond : (qD t.y1 && qD t.y2 && qD t.y3 && qD t.y4 &&
        qD t.mo1 && qD t.mo2 && qD t.d1 && qD t.d2 &&
        qD t.h1 && qD t.h2 && qD t.mi1 && qD t.mi2 &&
        qD t.s1 && qD t.s2) with
    | false => rw [if_neg (by simp), if_neg (by simp)]
    | true =>
      rw [if_pos rfl, if_pos rfl]
      rw [dropFrac_congr t.rest hrestD,
        dropTz_congr (dropFrac qD t.rest)
          (fun c hc => hrestD c (mem_of_dropFrac hc))]
      exact matchTsTail_congr _ _ _
        (fun c hc => hrestW c (mem_of_dropFrac (mem_of_dropTz hc)))

/-- Claim C1 (code_bug).  The claim says prefix normalization is a total
function over every input string, including multibyte UTF-8, and never
panics.  The code violates this: on the four-byte line
`"\x00a\u{e9}"` (null byte, `a`, `e-acute`) the guard
`result.len() >= 3` passes, but byte index 3 falls inside the two-byte
character `e-acute`, so `&result[3..]` panics with a char-boundary
error.  The part of the claim about short lines is real: a line of byte
length < 3 such as `"ab"` does pass through unchanged. -/
theorem c1_strip_panics_on_multibyte :
    strip_gitlab_prefixes ('\x00' :: 'a' :: 'é' :: []) = none ∧
    byteLen ('\x00' :: 'a' :: 'é' :: []) = 4 ∧
    strip_gitlab_prefixes ("ab".toList) = some ("ab".toList) := by
  decide

/-- Claim C2, counterexample.  The claim states the fallback strips
exactly when the third character is one of `0-9`, `A-F`, `a-f`, and
that every `"00"`-line with a third character outside that set is
returned unchanged.  The letter `O` is outside that set, yet
`"00Or"` is stripped to `"r"`. -/
theorem c2_counterexample_letter_O :
    specHexDigit 'O' = false ∧
    strip_gitlab_prefixes ("00Or".toList) = some ("r".toList) ∧
    ("00Or".toList ≠ "r".toList) := by
  decide

/-- Claim C2, amended.  The no-null-byte fallback strips the 3 leading
characters of a `"00"`-line exactly when the third character is in the
source's set, which is the claimed set `0-9`, `A-F`, `a-f` extended
with the letter `O` (the listed `E` is already in `A-F`); for a third
character outside that extended set the line is returned unchanged. -/
theorem c2_fallback_third_char_set (c3 : Char) (rest : List Char) :
    (stripCtrl ('0' :: '0' :: c3 :: rest) = some rest ↔
      isCtrlThird c3 = true) ∧
    (isCtrlThird c3 = false →
      strip_gitlab_prefixes ('0' :: '0' :: c3 :: rest) =
        some ('0' :: '0' :: c3 :: rest)) ∧
    isCtrlThird c3 = (specHexDigit c3 || c3 = 'O') := by
  refine ⟨⟨?_, ?_⟩, ?_, ctrlThird_eq_specHex_or_O c3⟩
  · intro h
    by_contra hc
    rw [stripCtrl_00, if_neg hc] at h
    have := congrArg (fun o => (Option.map List.length o).getD 0) h
    simp at this
    omega
  · intro h
    rw [stripCtrl_00, if_pos h]
  · intro h
    unfold strip_gitlab_prefixes
    rw [stripCtrl_00, if_neg (by simp [h])]
    simp only [Option.map_some']
    rw [if_neg (by simp [isSectionLine])]

theorem c2_witness :
    strip_gitlab_prefixes ('0' :: '0' :: 'Z' :: "r".toList) =
      some ('0' :: '0' :: 'Z' :: "r".toList) :=
  (c2_fallback_third_char_set 'Z' ("r".toList)).2.1 (by decide)

/-- Claim C3, counterexample.  Normalization is not idempotent: the
stripping branch fires at most once per call, so on `"00E00Ex"` the
first call yields `"00Ex"` and a second call strips again to `"x"`. -/
theorem c3_counterexample_nested :
    (strip_gitlab_prefixes ("00E00Ex".toList)).bind strip_gitlab_prefixes ≠
      strip_gitlab_prefixes ("00E00Ex".toList) := by
  decide

/-- Claim C3, amended.  Normalization is idempotent on every input
whose once-normalized form does not itself satisfy a control-prefix
stripping condition: if `strip_gitlab_prefixes x = some r` and `r` does
not start with a strippable control prefix, then normalizing twice
equals normalizing once. -/
theorem c3_idempotent_unless_restripped (x r : List Char)
    (h : strip_gitlab_prefixes x = some r) (hc : startsCtrl r = false) :
    (strip_gitlab_prefixes x).bind strip_gitlab_prefixes =
      strip_gitlab_prefixes x := by
  rcases strip_some_cases x r h with hr | hr
  · subst hr; rw [h]; decide
  · rw [h]
    show strip_gitlab_prefixes r = some r
    exact strip_unchanged r hc hr

theorem c3_witness :
    (strip_gitlab_prefixes ("00Eab".toList)).bind strip_gitlab_prefixes =
      strip_gitlab_prefixes ("00Eab".toList) :=
  c3_idempotent_unless_restripped ("00Eab".toList) ("ab".toList)
    (by decide) (by decide)

/-- Claim C4 (confirmed).  For every interpretation of the regex
classes and every line whose leading part matches the timestamp
pattern, `Hidden` removes the whole match (timestamp and trailing
whitespace), `DateOnly` keeps the date followed by one space and the
remainder, and `Full` keeps date and time-of-day followed by the
remainder; and for every interpretation agreeing with Unicode on the
ASCII range — as the regex crate's `\p{Nd}` and `\p{White_Space}`
tables do — the line `"2024-01-15T10:30:45.123Z hello"` gives
`"hello"`, `"2024-01-15 hello"` and `"2024-01-15 10:30:45 hello"`
under the three modes. -/
theorem c4_timestamp_modes :
    (∀ (isDigit isWs : Char → Bool) (s d t rest : List Char),
      matchTs isDigit isWs s = some (d, t, rest) →
      format_timestamp isDigit isWs s .Hidden = rest ∧
      format_timestamp isDigit isWs s .DateOnly = d ++ ' ' :: rest ∧
      format_timestamp isDigit isWs s .Full =
        d ++ ' ' :: (t ++ ' ' :: rest)) ∧
    (∀ isDigit isWs : Char → Bool,
      (∀ c : Char, c.toNat < 128 → isDigit c = asciiDigit c) →
      (∀ c : Char, c.toNat < 128 → isWs c = asciiWs c) →
      process_log_line isDigit isWs
          ("2024-01-15T10:30:45.123Z hello".toList) .Hidden =
        some ("hello".toList) ∧
      process_log_line isDigit isWs
          ("2024-01-15T10:30:45.123Z hello".toList) .DateOnly =
        some ("2024-01-15 hello".toList) ∧
      process_log_line isDigit isWs
          ("2024-01-15T10:30:45.123Z hello".toList) .Full =
        some ("2024-01-15 10:30:45 hello".toList)) := by
  constructor
  · intro isDigit isWs s d t rest h
    refine ⟨?_, ?_, ?_⟩ <;> simp [format_timestamp, h]
  · intro isDigit isWs hD hW
    have hascii : ∀ c ∈ ("2024-01-15T10:30:45.123Z hello".toList),
        c.toNat < 128 := by decide
    have hm : matchTs isDigit isWs
        ("2024-01-15T10:30:45.123Z hello".toList) =
        some ("2024-01-15".toList, "10:30:45".toList, "hello".toList) := by
      rw [matchTs_congr _ (fun c hc => hD c (hascii c hc))
        (fun c hc => hW c (hascii c hc))]
      decide
    have hstrip : strip_gitlab_prefixes
        ("2024-01-15T10:30:45.123Z hello".toList) =
        some ("2024-01-15T10:30:45.123Z hello".toList) := by decide
    refine ⟨?_, ?_, ?_⟩
    · simp only [process_log_line, hstrip, Option.map_some',
        format_timestamp, hm]
    · simp only [process_log_line, hstrip, Option.map_some',
        format_timestamp, hm]
      decide
    · simp only [process_log_line, hstrip, Option.map_some',
        format_timestamp, hm]
      decide

theorem c4_witness :
    process_log_line asciiDigit asciiWs
        ("2024-01-15T10:30:45.123Z hello".toList) .DateOnly =
      some ("2024-01-15 hello".toList) :=
  (c4_timestamp_modes.2 asciiDigit asciiWs (fun _ _ => rfl)
    (fun _ _ => rfl)).2.1

/-- Claim C5 (confirmed).  The viewport computation satisfies, over the
integers, `max_offset = max(0, total - height)`,
`start = clamp(requested, 0, max_offset)` and
`end = min(start + height, total)`; in particular
`visible_range 100 20 500 = (80, 100)` and a zero total gives the
empty range. -/
theorem c5_viewport_clamp :
    (∀ t h r : Nat,
      ((visible_range t h r).1 : Int) =
        max 0 (min (r : Int) (max 0 ((t : Int) - (h : Int)))) ∧
      ((visible_range t h r).2 : Int) =
        min (((visible_range t h r).1 : Int) + (h : Int)) (t : Int)) ∧
    visible_range 100 20 500 = (80, 100) ∧
    (∀ h r : Nat, visible_range 0 h r = (0, 0)) := by
  refine ⟨?_, by decide, ?_⟩
  · intro t h r
    simp only [visible_range]
    constructor <;> omega
  · intro h r
    simp only [visible_range, Prod.mk.injEq]
    constructor <;> omega

/-- Claim C6 (confirmed).  For every interpretation of the regex
classes, a line that satisfies no control-prefix stripping condition,
is no section marker, and has no leading timestamp match under that
interpretation is returned unchanged by the whole per-line pipeline in
every mode; and for every interpretation agreeing with Unicode on the
ASCII range — as the regex crate's tables do — a line that is only a
timestamp with no trailing whitespace is unchanged. -/
theorem c6_no_match_identity :
    (∀ (isDigit isWs : Char → Bool) (s : List Char)
      (mode : TimestampDisplayMode),
      startsCtrl s = false → isSectionLine s = false →
      matchTs isDigit isWs s = none →
      process_log_line isDigit isWs s mode = some s) ∧
    (∀ (isDigit isWs : Char → Bool) (mode : TimestampDisplayMode),
      (∀ c : Char, c.toNat < 128 → isDigit c = asciiDigit c) →
      (∀ c : Char, c.toNat < 128 → isWs c = asciiWs c) →
      process_log_line isDigit isWs
          ("2024-01-15T10:30:45.123Z".toList) mode =
        some ("2024-01-15T10:30:45.123Z".toList)) := by
  have main : ∀ (isDigit isWs : Char → Bool) (s : List Char)
      (mode : TimestampDisplayMode),
      startsCtrl s = false → isSectionLine s = false →
      matchTs isDigit isWs s = none →
      process_log_line isDigit isWs s mode = some s := by
    intro isDigit isWs s mode h1 h2 h3
    unfold process_log_line
    rw [strip_unchanged s h1 h2]
    simp only [Option.map_some', Option.some.injEq]
    cases mode <;> simp [format_timestamp, h3]
  refine ⟨main, ?_⟩
  intro isDigit isWs mode hD hW
  have hascii : ∀ c ∈ ("2024-01-15T10:30:45.123Z".toList),
      c.toNat < 128 := by decide
  have hm : matchTs isDigit isWs ("2024-01-15T10:30:45.123Z".toList) =
      none := by
    rw [matchTs_congr _ (fun c hc => hD c (hascii c hc))
      (fun c hc => hW c (hascii c hc))]
    decide
  exact main isDigit isWs _ mode (by decide) (by decide) hm

theorem c6_witness :
    process_log_line asciiDigit asciiWs ("hello".toList) .Hidden =
      some ("hello".toList) :=
  c6_no_match_identity.1 asciiDigit asciiWs ("hello".toList) .Hidden
    (by decide) (by decide) (by decide)

/-- Claim C7, counterexample.  Stripping the 3-character control prefix
is not the whole story for every payload: when the remaining payload is
a section marker, the section check that runs afterwards replaces the
line by the empty string, so
`strip_gitlab_prefixes ("\x00" + "0E" + "section_end:x")` is `""`,
not `"section_end:x"`. -/
theorem c7_counterexample_section_payload :
    strip_gitlab_prefixes ('\x00' :: '0' :: 'E' :: "section_end:x".toList) =
      some [] ∧
    ("section_end:x".toList ≠ ([] : List Char)) := by
  decide

/-- Claim C7, amended.  For every suffix `rest` that does not itself
begin with a section marker, the null-byte form `"\x00" + "0E" + rest`
and the no-null-byte form `"00" + c + rest` with `c` a hex digit are
both stripped to exactly `rest`; when `rest` begins with a section
marker the result is the empty string instead. -/
theorem c7_strip_three_leading (c3 : Char) (rest : List Char)
    (hsec : isSectionLine rest = false) (hc : specHexDigit c3 = true) :
    strip_gitlab_prefixes ('\x00' :: '0' :: 'E' :: rest) = some rest ∧
    strip_gitlab_prefixes ('0' :: '0' :: c3 :: rest) = some rest := by
  have hctrl : isCtrlThird c3 = true := by
    rw [ctrlThird_eq_specHex_or_O, hc]
    rfl
  constructor
  · unfold strip_gitlab_prefixes
    rw [stripCtrl_nullCode '0' 'E' rest (by decide) (by decide)]
    simp [hsec]
  · unfold strip_gitlab_prefixes
    rw [stripCtrl_00, if_pos hctrl]
    simp [hsec]

theorem c7_witness :
    strip_gitlab_prefixes ('\x00' :: '0' :: 'E' :: "rest".toList) =
      some ("rest".toList) :=
  (c7_strip_three_leading 'A' ("rest".toList) (by decide) (by decide)).1

/-- Claim C8 (confirmed).  Every line whose control-prefix-stripped
form begins with `section_start:` or `section_end:` is replaced by the
empty string. -/
theorem c8_section_marker_blanked (s r : List Char)
    (h : stripCtrl s = some r) (hsec : isSectionLine r = true) :
    strip_gitlab_prefixes s = some [] := by
  unfold strip_gitlab_prefixes
  rw [h]
  simp [hsec]

theorem c8_witness :
    strip_gitlab_prefixes ("section_end:x".toList) = some [] :=
  c8_section_marker_blanked ("section_end:x".toList)
    ("section_end:x".toList) (by decide) (by decide)

/-- Claim C9 (confirmed).  The style-parsing stage of `render` never
fails: for an arbitrary result of the external ANSI parser, a parse
error yields a single unstyled span holding the processed text
verbatim, a parse with no lines yields a single empty line, and
otherwise the first parsed line is used — the output type has no
failure case at all. -/
theorem c9_style_fallback (r : Except Unit (List (List Span)))
    (s : List Char) :
    (∀ e, r = .error e → styledLineOfParse r s = [⟨s, false⟩]) ∧
    (r = .ok [] → styledLineOfParse r s = [⟨[], false⟩]) ∧
    (∀ l ls, r = .ok (l :: ls) → styledLineOfParse r s = l) := by
  refine ⟨fun e he => ?_, fun he => ?_, fun l ls he => ?_⟩ <;> subst he <;>
    rfl

theorem c9_witness :
    styledLineOfParse (.error ()) ("ab".toList) = [⟨"ab".toList, false⟩] :=
  (c9_style_fallback (.error ()) ("ab".toList)).1 () rfl

/-- Claim C10 (confirmed).  When `log_content` is `None`, `render`
clears the area, draws only the bordered block titled `Job Log`, and
returns: no paragraph of processed lines, no indicators, and no search
bar appear in the issued operations, whatever the other fields
(including an active search mode) are. -/
theorem c10_render_no_content (ch : Nat)
    (parse : List Char → Except Unit (List (List Span)))
    (isDigit isWs : Char → Bool) (app : App)
    (h : app.log_content = none) :
    render ch parse isDigit isWs app =
      some [RenderOp.clear, RenderOp.block ("Job Log".toList)] := by
  unfold render
  rw [h]

theorem c10_witness :
    render 5 (fun _ => Except.ok []) asciiDigit asciiWs
      { log_content := none, log_job_name := none,
        timestamp_mode := TimestampDisplayMode.Hidden,
        log_scroll_offset := 3, is_searching := true,
        search_query := "q".toList, search_results := [],
        current_search_result := 0 } =
      some [RenderOp.clear, RenderOp.block ("Job Log".toList)] :=
  c10_render_no_content 5 (fun _ => Except.ok []) asciiDigit asciiWs _ rfl
